import Mathlib

/-!
Verification of the `@cailiao/locks` wrapper around the Web Locks API.

The repository (src/src/index.ts) is a thin broker over the platform lock
manager `navigator.locks`.  Pure wrapper logic (option handling, the
cancellation-signal composition, the promise plumbing of `request`,
`release`, `find`, `list`, `status`) is embedded directly from the source.
The platform lock manager itself (grant/queue state machine, snapshots) is
not part of the repository; where a claim depends on it, it is modelled
from the specification's description of the external capability (§4.1, §6).
-/

namespace Locks

/-- Lock mode, `'shared' | 'exclusive'` in the source. -/
inductive Mode where
  | shared
  | exclusive
deriving DecidableEq, Repr

/-- Snapshot projection of a held or pending request, as produced by the
manager's `query()` (`LockInfo` in the platform types): name, mode and
client id. -/
structure LockInfo where
  name : String
  mode : Mode
  clientId : String
deriving DecidableEq, Repr

/-- Modelled from the spec: the external manager's `snapshotAll()` /
`query()` returns a snapshot with the `held` and `pending` lists both
present (§6: `list() -> Future<{held: LockInfo[], pending: LockInfo[]}>`).
The source reads both fields with optional chaining, which on this contract
degenerates to the plain list reads. -/
structure Snapshot where
  held : List LockInfo
  pending : List LockInfo
deriving DecidableEq, Repr

/-- State of a JS promise over values of `α` with rejection reasons of `ε`:
pending, resolved or rejected.  A promise settles exactly once. -/
inductive PState (α : Type) (ε : Type) where
  | pending
  | resolved (a : α)
  | rejected (e : ε)
deriving DecidableEq, Repr

/-- Resolving a promise: settles a pending promise, no-op on a settled
one (JS `resolve` on an already-settled promise has no effect). -/
def resolveP {α ε : Type} (s : PState α ε) (a : α) : PState α ε :=
  match s with
  | .pending => .resolved a
  | s => s

/-- Rejecting a promise: settles a pending promise, no-op on a settled
one (JS `reject` on an already-settled promise has no effect). -/
def rejectP {α ε : Type} (s : PState α ε) (e : ε) : PState α ε :=
  match s with
  | .pending => .rejected e
  | s => s

/-! ## `list` and `find`

Source:
```
static list() { return this.#manager.query() }

static async find(name) {
  const { held, pending } = await this.#manager.query()
  return held?.some(lock => lock.name === name)
      || pending?.some(lock => lock.name === name)
}
```
Both operations observe the same manager snapshot. -/

/-- `Locks.list()`: returns the manager snapshot unchanged. -/
def list (s : Snapshot) : Snapshot := s

/-- `Locks.find(name)`: true when some held or some pending entry carries
the name. -/
def find (s : Snapshot) (name : String) : Bool :=
  s.held.any (fun lock => lock.name == name)
    || s.pending.any (fun lock => lock.name == name)

/-! ## `status`

Source:
```
const innerName = typeof name === 'string' ? name : name?.name
const all = await this.#manager.query()
if (innerName) {
  let heldLock, pendingLock
  const { held, pending } = all
  if (held) for (const lock of held) if (lock.name === innerName) heldLock = lock
  if (pending) for (const lock of pending) if (lock.name === innerName) pendingLock = lock
  if (!(heldLock || pendingLock)) return
  queryRes = { held: Boolean(heldLock), pending: Boolean(pendingLock),
               ...heldLock ?? pendingLock }
}
return queryRes!
```
-/

/-- The argument of `status`: a name string, or a lock handle (possibly
null — `name?.name` in the source guards a null handle). -/
inductive StatusArg where
  | str (n : String)
  | lockArg (l : Option LockInfo)
deriving DecidableEq, Repr

/-- `typeof name === 'string' ? name : name?.name`: the identifying name,
`none` standing for JS `undefined` (null handle). -/
def innerName : StatusArg → Option String
  | .str n => some n
  | .lockArg none => none
  | .lockArg (some l) => some l.name

/-- JS truthiness of `innerName`: `undefined` and the empty string are
falsy, every other string is truthy. -/
def truthyName : Option String → Bool
  | none => false
  | some s => s != ""

/-- The `for (const lock of held) if (lock.name === innerName) heldLock = lock`
loop: the variable retains the last matching entry. -/
def lastMatch (n : String) (locks : List LockInfo) : Option LockInfo :=
  locks.foldl (fun acc lock => if lock.name == n then some lock else acc) none

/-- Result object of `status`: the held/pending booleans together with the
spread `...heldLock ?? pendingLock` LockInfo fields. -/
structure StatusRes where
  held : Bool
  pending : Bool
  info : LockInfo
deriving DecidableEq, Repr

/-- The body of the `if (innerName)` branch of `status`, for a truthy
resolved name `n`. -/
def statusCompute (n : String) (s : Snapshot) : Option StatusRes :=
  let heldLock := lastMatch n s.held
  let pendingLock := lastMatch n s.pending
  match heldLock, pendingLock with
  | none, none => none
  | some h, p => some ⟨true, p.isSome, h⟩
  | none, some p => some ⟨false, true, p⟩

/-- `Locks.status(name)`: resolves the identifying name, then reports the
held/pending booleans and the selected LockInfo fields; `none` is the JS
`undefined` return (falsy resolved name, or no matching entry). -/
def status (s : Snapshot) (arg : StatusArg) : Option StatusRes :=
  match innerName arg with
  | some n => if truthyName (some n) then statusCompute n s else none
  | none => none

/-! ## `release`

Source:
```
static #lockMap = new WeakMap<Lock,() => unknown>()
static release(lock) { this.#lockMap.get(lock)?.() }
```
The wake action stored for a handle is the `done` resolver of the session's
`waitDone` promise (see the handle-mode branch of `request`); invoking it
resolves that promise, which lets the manager continuation return and the
lock be released.  Entries are never deleted from the map; idempotence
comes from promise settle-once. -/

/-- Broker state relevant to `release`: the identity-keyed handle map
(lock id to `waitDone` promise id) and the states of those promises.
Handles and promises are identified by naturals. -/
structure BrokerState where
  lockMap : List (Nat × Nat)
  dones : List (Nat × PState Unit Nat)
deriving DecidableEq, Repr

/-- Resolve the promise with id `p` in the promise table (the stored wake
action is the promise's `resolve`; on an already-settled promise it is a
no-op via `resolveP`). -/
def resolveDone (ds : List (Nat × PState Unit Nat)) (p : Nat) :
    List (Nat × PState Unit Nat) :=
  ds.map (fun kv => if kv.1 == p then (kv.1, resolveP kv.2 ()) else kv)

/-- `Locks.release(lock)`: look the handle up in the map and invoke the
wake action when present.  `none` models a null handle (`WeakMap.get`
returns undefined on a non-object key, and `?.()` skips the call); an
unknown handle likewise falls through.  The function is total: no path
throws. -/
def release (s : BrokerState) (lock : Option Nat) : BrokerState :=
  match lock with
  | none => s
  | some l =>
    match s.lockMap.lookup l with
    | none => s
    | some p => { s with dones := resolveDone s.dones p }

/-! ## Cancellation-signal composition of `request`

Source:
```
const { timeout = 1e4, steal } = opt
const timeoutSignal = timeout && !steal ? AbortSignal.timeout(timeout) : void 0

if (signal) {
  const innerSigbalCtrl = new AbortController()
  signal.addEventListener('abort', () => { innerSigbalCtrl.abort() })
  timeoutSignal?.addEventListener('abort', reson => { innerSigbalCtrl.abort(reson) })
  signal = innerSigbalCtrl.signal
} else signal = timeoutSignal
```
Note the listener parameter `reson` is the abort *Event* delivered by
`addEventListener`, not the signal's abort reason. -/

/-- A JS value used as an abort/rejection reason: a `DOMException` carrying
a `name`, or the abort `Event` object the timeout listener forwards (an
`Event` has no `name` property). -/
inductive JSReason where
  | domExc (name : String)
  | abortEvent
deriving DecidableEq, Repr

/-- `err.name` of a reason value: the DOMException name, or `undefined`
(`none`) on an Event object. -/
def reasonName : JSReason → Option String
  | .domExc n => some n
  | .abortEvent => none

/-- `AbortController` abort state: `none` while not aborted, `some r`
once aborted with reason `r`.  `abort` on an already-aborted controller is
a no-op (the first abort wins). -/
def ctrlAbort (st : Option JSReason) (r : JSReason) : Option JSReason :=
  match st with
  | none => some r
  | some r0 => some r0

/-- A cancellation source firing: the caller-supplied external signal or
the timeout signal. -/
inductive FireEv where
  | externalFires
  | timeoutFires
deriving DecidableEq, Repr

/-- The inner controller's abort state after the sources fire in the given
order, when both an external signal and a timeout signal are installed.
The external listener calls `innerSigbalCtrl.abort()` — default reason, a
DOMException named AbortError; the timeout listener calls
`innerSigbalCtrl.abort(reson)` with `reson` the abort Event object. -/
def composedReason (evs : List FireEv) : Option JSReason :=
  evs.foldl
    (fun st ev =>
      match ev with
      | .externalFires => ctrlAbort st (.domExc "AbortError")
      | .timeoutFires => ctrlAbort st .abortEvent)
    none

/-- Rejection reason of the caller's future when the request is still
pending as the composed signal aborts: the manager rejects its promise
with `signal.reason`, and the `.catch` hands that error to `rejectorLock`,
rejecting the (still pending) returned future with it. -/
def rejectionReasonBoth (evs : List FireEv) : Option JSReason :=
  composedReason evs

/-- When no external signal is supplied, `signal = timeoutSignal` and the
pending request is rejected with the timeout signal's own reason: a
DOMException named TimeoutError. -/
def rejectionReasonTimeoutOnly : JSReason := .domExc "TimeoutError"

/-- Whether the `.catch` warn branch `if (err.name === 'TimeoutError')`
fires for a given rejection reason. -/
def warnsTimeout (r : JSReason) : Bool :=
  reasonName r == some "TimeoutError"

/-- `const { timeout = 1e4, steal } = opt`: the effective timeout, the
destructuring default 10000 applying when the option is absent. -/
def effTimeout (timeout : Option Int) : Int :=
  timeout.getD 10000

/-- `timeout && !steal ? AbortSignal.timeout(timeout) : void 0`: a timeout
cancellation source is installed exactly when the effective timeout is
truthy (non-zero) and `steal` is not set. -/
def timeoutSignalInstalled (timeout : Option Int) (steal : Bool) : Bool :=
  (effTimeout timeout != 0) && !steal

/-! ## The grant continuation of `request` and the surrounding pipeline

Source:
```
this.#manager
  .request(name, { ...opt, signal }, async lock => {
    getLock(lock)
    if (callback) return await callback(lock)
    const { promise: waitDone, resolve: done } = Promise.withResolvers()
    if (lock) this.#lockMap.set(lock, done)
    await waitDone
  })
  .catch(err => {
    if (err.name === 'TimeoutError') console.warn(...)
    rejectorLock(err)
  })
return waitLock
```
The external manager holds the lock from the moment it invokes the
continuation until the continuation's returned promise settles; the
manager's own `request` promise then settles the same way. -/

/-- Settlement of the user callback (an async function): it fulfils with a
value or rejects/throws with a reason.  Values and reasons are naturals. -/
inductive CbResult where
  | ok (v : Nat)
  | throws (e : Nat)
deriving DecidableEq, Repr

/-- Observable events of one granted session, in program order. -/
inductive Ev where
  | resolveFuture (lock : Option Nat)
  | cbInvoke (lock : Option Nat)
  | registerWake (lock : Nat)
deriving DecidableEq, Repr

/-- How the continuation's promise stands after its synchronous prefix:
settled together with the callback (callback mode), or pending until the
session's `done` wake action runs (handle mode).  The manager keeps the
lock held while the continuation's promise is pending and releases it the
moment the promise settles. -/
inductive ContStatus where
  | settled (r : CbResult)
  | awaitingDone
deriving DecidableEq, Repr

/-- Result of running the continuation `async lock => {...}` on the granted
`lock` (`none` is the null handle of an ifAvailable miss): the state of the
caller's `waitLock` future, the emitted events, and the continuation
status. -/
structure ContRun where
  waitLock : PState (Option Nat) Nat
  events : List Ev
  status : ContStatus
deriving DecidableEq, Repr

/-- The continuation body: `getLock(lock)` resolves the caller's future
with the handle; with a callback, `return await callback(lock)` makes the
continuation settle exactly as the callback settles; without one, the wake
action is registered for a non-null handle and the continuation awaits
`waitDone`. -/
def runContinuation (waitLock0 : PState (Option Nat) Nat) (lock : Option Nat)
    (cb : Option (Option Nat → CbResult)) : ContRun :=
  let waitLock1 := resolveP waitLock0 lock
  match cb with
  | some f =>
    { waitLock := waitLock1
      events := [.resolveFuture lock, .cbInvoke lock]
      status := .settled (f lock) }
  | none =>
    match lock with
    | some l =>
      { waitLock := waitLock1
        events := [.resolveFuture lock, .registerWake l]
        status := .awaitingDone }
    | none =>
      { waitLock := waitLock1
        events := [.resolveFuture lock]
        status := .awaitingDone }

/-- Whether the manager has released the lock once the continuation
reaches the given status: release happens exactly when the continuation's
promise settles (callback settlement, success or failure); in handle mode
it stays held awaiting the wake action. -/
def lockReleased : ContStatus → Bool
  | .settled _ => true
  | .awaitingDone => false

/-- The caller's future after the whole granted-with-callback pipeline:
the continuation runs (resolving the future with the handle and settling
with the callback), and when the callback failed, the manager promise
rejects and `.catch` feeds the error to `rejectorLock` — on the
already-settled future. -/
def pipelineFuture (lock : Option Nat) (f : Option Nat → CbResult) :
    PState (Option Nat) Nat :=
  let run := runContinuation .pending lock (some f)
  match run.status with
  | .settled (.throws e) => rejectP run.waitLock e
  | _ => run.waitLock

/-! ## The lock table

Modelled from the spec: the grant/queue state machine of §4.1 lives in the
external platform manager (`navigator.locks`), not in the repository
sources; it is reconstructed here from the specification's transition
rules (tryGrant, enqueue, ifAvailable miss, steal eviction, release with
head-to-tail wake scan, cancellation of a pending request). -/

/-- Per-name lock-table entry: the modes of the current holders in grant
order, and the modes of the waiting requests in arrival order. -/
structure Entry where
  holders : List Mode
  waiters : List Mode
deriving DecidableEq, Repr

/-- Whether a request of mode `m` is compatible with the current holder
set: the set is empty, or everyone (incoming included) is shared. -/
def compatible (holders : List Mode) (m : Mode) : Bool :=
  holders.isEmpty || (m == .shared && holders.all (fun h => h == .shared))

/-- `tryGrant` test of §4.1 for a non-steal request: the entry is empty,
or it is held shared, the request is shared and the waiter queue is empty
(the FIFO barrier: a pending request blocks new shared admissions). -/
def tryGrantable (e : Entry) (m : Mode) : Bool :=
  e.holders.isEmpty
    || ((m == .shared && e.holders.all (fun h => h == .shared))
          && e.waiters.isEmpty)

/-- Outcome of submitting one request against an entry. -/
inductive ReqOutcome where
  | granted
  | grantedNull
  | enqueued
deriving DecidableEq, Repr

/-- Submitting a request of mode `m` with the given flags: steal evicts
every current holder and grants immediately; otherwise an immediate grant
when `tryGrantable`; otherwise an ifAvailable request resolves with the
null handle, leaving the entry untouched; otherwise the request is
appended to the waiter queue. -/
def requestStep (e : Entry) (m : Mode) (ifAvailable steal : Bool) :
    Entry × ReqOutcome :=
  if steal then ({ holders := [m], waiters := e.waiters }, .granted)
  else if tryGrantable e m then
    ({ holders := e.holders ++ [m], waiters := e.waiters }, .granted)
  else if ifAvailable then (e, .grantedNull)
  else ({ holders := e.holders, waiters := e.waiters ++ [m] }, .enqueued)

/-- How the broker settles the caller's future for each request outcome:
a handle on grant, the null handle on an ifAvailable miss, still pending
while enqueued.  Rejection (timeout/abort of a pending request) is the
separate `rejected` state and never carries the null handle. -/
def futureOfOutcome (o : ReqOutcome) (handle : Nat) : PState (Option Nat) JSReason :=
  match o with
  | .granted => .resolved (some handle)
  | .grantedNull => .resolved none
  | .enqueued => .pending

/-- The wake scan after a holder leaves: waiters are scanned head to tail,
each compatible waiter moving from the queue into the holder set, stopping
at the first incompatible waiter. -/
def wakeScan (holders : List Mode) (waiters : List Mode) : List Mode × List Mode :=
  match waiters with
  | [] => (holders, [])
  | w :: ws =>
    if compatible holders w then wakeScan (holders ++ [w]) ws
    else (holders, w :: ws)

/-- Release of the holder at position `i` (voluntary release, cancellation
of a holder, or steal eviction is separate): drop that holder, then run
the wake scan over the waiter queue. -/
def releaseStep (e : Entry) (i : Nat) : Entry :=
  let res := wakeScan (e.holders.eraseIdx i) e.waiters
  { holders := res.1, waiters := res.2 }

/-- Cancellation of the still-pending request at position `j`: it is
removed from the waiter queue, holders untouched. -/
def cancelStep (e : Entry) (j : Nat) : Entry :=
  { holders := e.holders, waiters := e.waiters.eraseIdx j }

/-- One transition of a single entry. -/
inductive EStep : Entry → Entry → Prop where
  | request (e : Entry) (m : Mode) (ifAvailable steal : Bool) :
      EStep e (requestStep e m ifAvailable steal).1
  | release (e : Entry) (i : Nat) : EStep e (releaseStep e i)
  | cancel (e : Entry) (j : Nat) : EStep e (cancelStep e j)

/-- Global lock-table state: the per-name entries, later bindings
shadowing earlier ones. -/
def TableState := List (String × Entry)

/-- The entry of a name, lazily the empty entry. -/
def getEntry (s : TableState) (n : String) : Entry :=
  (s.lookup n).getD { holders := [], waiters := [] }

/-- Rebind the entry of a name. -/
def setEntry (s : TableState) (n : String) (e : Entry) : TableState :=
  (n, e) :: s

/-- One transition of the table: a single name's entry takes an entry-level
step; requests for different names are independent. -/
inductive Step : TableState → TableState → Prop where
  | mk (s : TableState) (n : String) (e2 : Entry)
      (h : EStep (getEntry s n) e2) : Step s (setEntry s n e2)

/-- The reachable table states: the empty table, closed under steps. -/
inductive Reachable : TableState → Prop where
  | init : Reachable []
  | step {s t : TableState} (hs : Reachable s) (hst : Step s t) : Reachable t

/-- The holder invariant of a single entry: no holders, exactly one
exclusive holder, or only shared holders. -/
def holdersWF (holders : List Mode) : Bool :=
  holders.isEmpty || holders == [.exclusive]
    || holders.all (fun h => h == .shared)

/-! ## Supporting lemmas -/

/-- Resolving the same value twice is the same as resolving it once. -/
theorem resolveP_resolveP {α ε : Type} (s : PState α ε) (a : α) :
    resolveP (resolveP s a) a = resolveP s a := by
  cases s <;> rfl

/-- Resolving an already-resolved promise changes nothing. -/
theorem rejectP_resolved {α ε : Type} (a : α) (e : ε) :
    rejectP (α := α) (ε := ε) (.resolved a) e = .resolved a := rfl

/-- Applying the wake action of the same promise twice equals applying it
once: the promise settles only the first time. -/
theorem resolveDone_idem (ds : List (Nat × PState Unit Nat)) (p : Nat) :
    resolveDone (resolveDone ds p) p = resolveDone ds p := by
  unfold resolveDone
  rw [List.map_map]
  apply List.map_congr_left
  intro kv _
  by_cases h : kv.1 = p
  · simp [h, resolveP_resolveP]
  · simp [h]

/-- `release` never touches the handle map (entries are never deleted). -/
theorem release_lockMap (s : BrokerState) (l : Option Nat) :
    (release s l).lockMap = s.lockMap := by
  cases l with
  | none => rfl
  | some lid =>
    cases h : s.lockMap.lookup lid <;> simp [release, h]

/-! ## Claim theorems -/

/-- C1: with both a caller signal and a timeout installed, the claim says a
pending request is rejected with TimeoutError when the timeout fires
first.  The code instead aborts the inner controller with the abort Event
object (the listener's parameter is the event, not a reason), so the
future is rejected with a value whose `name` is undefined — not
TimeoutError — and the code's own TimeoutError warn branch never fires;
the external-signal-first path and the timeout-only path do behave as
documented, and a late loser never changes the settled reason. -/
theorem C1_timeout_reason_is_event :
    rejectionReasonBoth [.timeoutFires] = some .abortEvent
    ∧ rejectionReasonBoth [.timeoutFires, .externalFires] = some .abortEvent
    ∧ reasonName .abortEvent = none
    ∧ warnsTimeout .abortEvent = false
    ∧ rejectionReasonBoth [.externalFires, .timeoutFires]
        = some (.domExc "AbortError")
    ∧ rejectionReasonTimeoutOnly = .domExc "TimeoutError"
    ∧ warnsTimeout rejectionReasonTimeoutOnly = true := by
  refine ⟨rfl, rfl, rfl, ?_, rfl, rfl, ?_⟩ <;> decide

/-- C2: a timeout cancellation source is installed iff the effective
timeout is non-zero and `steal` is not set; an absent timeout option
defaults to 10000 ms, an explicit 0 disables the timeout, and `steal`
disables it regardless of the timeout value. -/
theorem C2_timeout_installation (t : Option Int) (s : Bool) :
    (timeoutSignalInstalled t s = true ↔ (effTimeout t ≠ 0 ∧ s = false))
    ∧ effTimeout none = 10000
    ∧ timeoutSignalInstalled (some 0) s = false
    ∧ timeoutSignalInstalled t true = false := by
  refine ⟨?_, rfl, ?_, ?_⟩
  · simp [timeoutSignalInstalled, Bool.and_eq_true, bne_iff_ne,
      Bool.not_eq_true']
  · simp [timeoutSignalInstalled, effTimeout]
  · simp [timeoutSignalInstalled]

/-- Witness for C2 at concrete inputs: with no timeout option and no
steal the source is installed and the default is 10000. -/
theorem C2_timeout_installation_witness :
    timeoutSignalInstalled none false = true ∧ effTimeout none = 10000 :=
  ⟨(C2_timeout_installation none false).1.mpr ⟨by decide, rfl⟩,
   (C2_timeout_installation none false).2.1⟩

/-- C3: with a callback supplied and the lock granted, the continuation
resolves the returned future with the handle, then invokes the callback
with that same handle, and the continuation's promise settles exactly as
the callback settles (for every callback behaviour, success or failure),
which is the moment the manager releases the lock; while the callback
runs the continuation is unsettled, so the lock stays held throughout. -/
theorem C3_callback_session (l : Nat) (f : Option Nat → CbResult) :
    (runContinuation .pending (some l) (some f)).waitLock
        = .resolved (some l)
    ∧ (runContinuation .pending (some l) (some f)).events
        = [.resolveFuture (some l), .cbInvoke (some l)]
    ∧ (runContinuation .pending (some l) (some f)).status
        = .settled (f (some l))
    ∧ lockReleased ((runContinuation .pending (some l) (some f)).status) = true
    ∧ lockReleased .awaitingDone = false :=
  ⟨rfl, rfl, rfl, rfl, rfl⟩

/-- C4 counterexample: the claim says a callback failure is propagated to
the caller's future.  With handle 0 and a callback that throws 7, the
pipeline leaves the returned future resolved with the handle — it is not
rejected with the callback's error, so the caller cannot observe the
failure through the returned future. -/
theorem C4_callback_failure_swallowed :
    pipelineFuture (some 0) (fun _ => .throws 7) = .resolved (some 0)
    ∧ pipelineFuture (some 0) (fun _ => .throws 7) ≠ .rejected 7 := by
  exact ⟨rfl, by decide⟩

/-- C4 amended: the callback's failure is handed to the returned future's
reject function by the catch handler, but the future has already resolved
with the handle at grant time, so the rejection is a no-op and the future
stays resolved with the handle; the lock is still released when the
callback settles (the continuation settles with the failure). -/
theorem C4_release_despite_failure (l e : Nat) :
    pipelineFuture (some l) (fun _ => .throws e) = .resolved (some l)
    ∧ (runContinuation .pending (some l) (some (fun _ => .throws e))).status
        = .settled (.throws e)
    ∧ lockReleased (.settled (.throws e)) = true :=
  ⟨rfl, rfl, rfl⟩

/-- C5: `release` invokes the stored wake action when the handle is known
(resolving the session's done promise), is a no-op on a null or unknown
handle, and a second release of the same handle leaves the state exactly
as after the first (the map is unchanged and re-resolving a settled
promise does nothing); the function is total, so no path throws. -/
theorem C5_release_idempotent_noop (s : BrokerState) (l : Option Nat) :
    release (release s l) l = release s l
    ∧ release s none = s
    ∧ (∀ lid, l = some lid → s.lockMap.lookup lid = none → release s l = s)
    ∧ (∀ lid p, l = some lid → s.lockMap.lookup lid = some p →
        release s l = { s with dones := resolveDone s.dones p }) := by
  refine ⟨?_, rfl, ?_, ?_⟩
  · cases l with
    | none => rfl
    | some lid =>
      cases h : s.lockMap.lookup lid with
      | none => simp [release, h]
      | some p => simp [release, h, resolveDone_idem]
  · intro lid hl h
    subst hl
    simp [release, h]
  · intro lid p hl h
    subst hl
    simp [release, h]

/-- Witness for C5 at a concrete state: handle 1 is mapped to promise 5,
so releasing invokes the wake action, and releasing a null handle is the
identity. -/
theorem C5_release_witness :
    release ⟨[(1, 5)], [(5, .pending)]⟩ (some 1)
      = { lockMap := [(1, 5)],
          dones := resolveDone [(5, .pending)] 5 }
    ∧ release (⟨[(1, 5)], [(5, .pending)]⟩ : BrokerState) none
      = ⟨[(1, 5)], [(5, .pending)]⟩ :=
  ⟨(C5_release_idempotent_noop ⟨[(1, 5)], [(5, .pending)]⟩ (some 1)).2.2.2
      1 5 rfl rfl,
   (C5_release_idempotent_noop ⟨[(1, 5)], [(5, .pending)]⟩ (some 1)).2.1⟩

/-- C6: `find` returns true exactly when the name appears among the held
or the pending entries of the snapshot that `list` reports. -/
theorem C6_find_iff_in_snapshot (s : Snapshot) (name : String) :
    find s name = true
      ↔ ((∃ l ∈ (list s).held, l.name = name)
          ∨ (∃ l ∈ (list s).pending, l.name = name)) := by
  simp [find, list, List.any_eq_true, beq_iff_eq]

/-- Witness for C6 at a concrete snapshot: a lock named a held makes
`find` true. -/
theorem C6_find_witness :
    find ⟨[⟨"a", .exclusive, "c"⟩], []⟩ "a" = true :=
  (C6_find_iff_in_snapshot ⟨[⟨"a", .exclusive, "c"⟩], []⟩ "a").mpr
    (Or.inl ⟨⟨"a", .exclusive, "c"⟩, List.mem_singleton.mpr rfl, rfl⟩)

/-- The last element of a cons list, as an `Option.or`. -/
theorem getLast?_cons_or {α : Type} (x : α) (l : List α) :
    (x :: l).getLast? = Option.or l.getLast? (some x) := by
  cases l with
  | nil => rfl
  | cons y ys =>
    rw [List.getLast?_cons_cons]
    cases h : (y :: ys).getLast? with
    | none =>
      exact absurd h (by simp [List.getLast?_eq_none_iff])
    | some z => rfl

/-- The matching-entry loop computes the last matching entry: its foldl,
started from any accumulator, yields the last element of the filtered
list, falling back to the accumulator. -/
theorem foldl_lastMatch (n : String) (xs : List LockInfo) :
    ∀ acc : Option LockInfo,
      xs.foldl (fun acc lock => if lock.name == n then some lock else acc) acc
        = Option.or ((xs.filter (fun l => l.name == n)).getLast?) acc := by
  induction xs with
  | nil => intro acc; simp
  | cons x xs ih =>
    intro acc
    rw [List.foldl_cons, ih, List.filter_cons]
    by_cases hx : (x.name == n) = true
    · simp only [hx, if_true, getLast?_cons_or]
      cases h : (xs.filter (fun l => l.name == n)).getLast? <;> rfl
    · simp only [Bool.not_eq_true] at hx
      simp [hx]

/-- `lastMatch` is the last element of the filtered list. -/
theorem lastMatch_filter (n : String) (xs : List LockInfo) :
    lastMatch n xs = (xs.filter (fun l => l.name == n)).getLast? := by
  rw [lastMatch, foldl_lastMatch]
  cases (xs.filter (fun l => l.name == n)).getLast? <;> rfl

/-- `lastMatch` finds an entry exactly when some entry carries the name. -/
theorem lastMatch_isSome (n : String) (xs : List LockInfo) :
    (lastMatch n xs).isSome = xs.any (fun l => l.name == n) := by
  rw [lastMatch_filter]
  cases h : (xs.filter (fun l => l.name == n)).getLast? with
  | none =>
    have hnil : xs.filter (fun l => l.name == n) = [] :=
      List.getLast?_eq_none_iff.mp h
    have hany : xs.any (fun l => l.name == n) = false := by
      rw [List.any_eq_false]
      intro l hl
      simpa using List.filter_eq_nil_iff.mp hnil l hl
    simp [hany]
  | some v =>
    have hv : v ∈ xs.filter (fun l => l.name == n) := by
      obtain ⟨hne, hx⟩ := List.mem_getLast?_eq_getLast (Option.mem_def.mpr h)
      rw [hx]
      exact List.getLast_mem hne
    rw [List.mem_filter] at hv
    have hany : xs.any (fun l => l.name == n) = true :=
      List.any_eq_true.mpr ⟨v, hv.1, hv.2⟩
    simp [hany]

/-- With a truthy resolved name, `status` runs the snapshot scan. -/
theorem status_eq_statusCompute (s : Snapshot) (arg : StatusArg) (n : String)
    (hn : innerName arg = some n) (hne : n ≠ "") :
    status s arg = statusCompute n s := by
  simp [status, hn, truthyName, bne_iff_ne, hne]

/-- C8 counterexample: the empty string is a falsy name, so `status` on a
snapshot that holds a lock named by the empty string returns undefined,
even though the name is present in the held snapshot (the claim requires
an object with `held = true` there). -/
theorem C8_empty_name_counterexample :
    status ⟨[⟨"", .exclusive, "c1"⟩], []⟩ (.str "") = none
    ∧ ([(⟨"", .exclusive, "c1"⟩ : LockInfo)].any
        (fun l => l.name == "")) = true := by
  exact ⟨rfl, rfl⟩

/-- C8 amended: for an argument whose resolved identifying name is
non-empty, `status` returns undefined exactly when the name is absent
from both snapshots, and any returned object's held and pending booleans
report whether some held, respectively pending, entry carries the name
(for a falsy resolved name — null handle or empty string — it returns
undefined regardless of the snapshots). -/
theorem C8_status_reports_presence (s : Snapshot) (arg : StatusArg)
    (n : String) (hn : innerName arg = some n) (hne : n ≠ "") :
    (status s arg = none
      ↔ (s.held.any (fun l => l.name == n) = false
          ∧ s.pending.any (fun l => l.name == n) = false))
    ∧ (∀ res, status s arg = some res →
        res.held = s.held.any (fun l => l.name == n)
        ∧ res.pending = s.pending.any (fun l => l.name == n)) := by
  have hst := status_eq_statusCompute s arg n hn hne
  have hh := lastMatch_isSome n s.held
  have hp := lastMatch_isSome n s.pending
  rw [hst]
  cases h1 : lastMatch n s.held with
  | none =>
    rw [h1] at hh
    cases h2 : lastMatch n s.pending with
    | none =>
      rw [h2] at hp
      constructor
      · simp [statusCompute, h1, h2, ← hh, ← hp]
      · intro res hres
        simp [statusCompute, h1, h2] at hres
    | some p0 =>
      rw [h2] at hp
      constructor
      · simp [statusCompute, h1, h2, ← hp]
      · intro res hres
        simp only [statusCompute, h1, h2] at hres
        cases hres
        exact ⟨hh, hp⟩
  | some h0 =>
    rw [h1] at hh
    cases h2 : lastMatch n s.pending with
    | none =>
      rw [h2] at hp
      constructor
      · simp [statusCompute, h1, h2, ← hh]
      · intro res hres
        simp only [statusCompute, h1, h2] at hres
        cases hres
        exact ⟨hh, by simpa using hp⟩
    | some p0 =>
      rw [h2] at hp
      constructor
      · simp [statusCompute, h1, h2, ← hh]
      · intro res hres
        simp only [statusCompute, h1, h2] at hres
        cases hres
        exact ⟨hh, by simpa using hp⟩

/-- Witness for C8 amended at concrete inputs: on an empty snapshot the
status of a non-empty name is undefined. -/
theorem C8_status_witness :
    status ⟨[], []⟩ (.str "a") = none :=
  (C8_status_reports_presence ⟨[], []⟩ (.str "a") "a" rfl
    (by decide)).1.mpr ⟨rfl, rfl⟩

/-- C10 counterexample: a snapshot with two held entries named by the
empty string matches the name in more than one entry, yet `status` returns
undefined — no object carries the fields of the last held match, because
the empty name is falsy in the `if (innerName)` guard. -/
theorem C10_empty_name_counterexample :
    status ⟨[⟨"", .shared, "a"⟩, ⟨"", .exclusive, "b"⟩], []⟩ (.str "") = none
    ∧ (([⟨"", .shared, "a"⟩, ⟨"", .exclusive, "b"⟩] : List LockInfo).filter
        (fun l => l.name == "")).length = 2 := by
  exact ⟨rfl, rfl⟩

/-- C10 amended: for a non-empty resolved name, every object returned by
`status` takes its LockInfo fields from the last matching entry of the
held list when one exists, otherwise from the last matching entry of the
pending list, while the held and pending booleans are computed
independently as presence tests over the two lists. -/
theorem C10_fields_from_last_match (s : Snapshot) (arg : StatusArg)
    (n : String) (res : StatusRes) (hn : innerName arg = some n)
    (hne : n ≠ "") (hres : status s arg = some res) :
    (∀ h, (s.held.filter (fun l => l.name == n)).getLast? = some h →
        res.info = h)
    ∧ (s.held.filter (fun l => l.name == n) = [] →
        ∀ p, (s.pending.filter (fun l => l.name == n)).getLast? = some p →
          res.info = p)
    ∧ res.held = s.held.any (fun l => l.name == n)
    ∧ res.pending = s.pending.any (fun l => l.name == n) := by
  have hst := status_eq_statusCompute s arg n hn hne
  rw [hst] at hres
  have hh := lastMatch_isSome n s.held
  have hp := lastMatch_isSome n s.pending
  have hhf := lastMatch_filter n s.held
  have hpf := lastMatch_filter n s.pending
  cases h1 : lastMatch n s.held with
  | some h0 =>
    rw [h1] at hh hhf
    cases h2 : lastMatch n s.pending with
    | none =>
      rw [h2] at hp hpf
      simp only [statusCompute, h1, h2] at hres
      cases hres
      refine ⟨?_, ?_, hh, by simpa using hp⟩
      · intro h hhl
        rw [← hhf] at hhl
        cases hhl
        rfl
      · intro hnil
        rw [hnil] at hhf
        simp at hhf
    | some p0 =>
      rw [h2] at hp hpf
      simp only [statusCompute, h1, h2] at hres
      cases hres
      refine ⟨?_, ?_, hh, by simpa using hp⟩
      · intro h hhl
        rw [← hhf] at hhl
        cases hhl
        rfl
      · intro hnil
        rw [hnil] at hhf
        simp at hhf
  | none =>
    rw [h1] at hh hhf
    cases h2 : lastMatch n s.pending with
    | none =>
      simp [statusCompute, h1, h2] at hres
    | some p0 =>
      rw [h2] at hp hpf
      simp only [statusCompute, h1, h2] at hres
      cases hres
      refine ⟨?_, ?_, by simpa using hh, by simpa using hp⟩
      · intro h hhl
        rw [← hhf] at hhl
        cases hhl
      · intro _ p hpl
        rw [← hpf] at hpl
        cases hpl
        rfl

/-- Witness for C10 amended at a concrete snapshot with two held entries
of the same name: the returned fields are those of the second (last)
held entry. -/
theorem C10_fields_witness :
    (⟨true, false, ⟨"x", .exclusive, "b"⟩⟩ : StatusRes).info
      = ⟨"x", .exclusive, "b"⟩ :=
  (C10_fields_from_last_match
      ⟨[⟨"x", .shared, "a"⟩, ⟨"x", .exclusive, "b"⟩], []⟩ (.str "x") "x"
      ⟨true, false, ⟨"x", .exclusive, "b"⟩⟩ rfl (by decide) rfl).1
    ⟨"x", .exclusive, "b"⟩ rfl

/-- C7: an ifAvailable request (no steal) against a name whose current
holders are mode-incompatible resolves immediately with the null handle,
leaving the entry — in particular its waiter queue — untouched; the null
outcome arises only when ifAvailable is set, steal is not, and an
immediate grant is impossible; and a null resolution is a resolution,
never the rejected state of the future. -/
theorem C7_ifAvailable_immediate_null (e : Entry) (m : Mode) (handle : Nat)
    (ia st : Bool) :
    (e.holders ≠ [] → compatible e.holders m = false →
        requestStep e m true false = (e, .grantedNull))
    ∧ ((requestStep e m ia st).2 = .grantedNull →
        ia = true ∧ st = false ∧ tryGrantable e m = false)
    ∧ futureOfOutcome .grantedNull handle = .resolved none
    ∧ (∀ r : JSReason, futureOfOutcome .grantedNull handle ≠ .rejected r) := by
  refine ⟨?_, ?_, rfl, ?_⟩
  · intro hne hc
    have hg : tryGrantable e m = false := by
      simp only [compatible, Bool.or_eq_false_iff] at hc
      simp [tryGrantable, hc.1, hc.2]
    simp [requestStep, hg]
  · intro h
    cases st with
    | true => simp [requestStep] at h
    | false =>
      by_cases hg : tryGrantable e m = true
      · simp [requestStep, hg] at h
      · cases ia with
        | true => exact ⟨rfl, rfl, Bool.eq_false_iff.mpr hg⟩
        | false => simp [requestStep, hg] at h
  · intro r
    simp [futureOfOutcome]

/-- Witness for C7 at a concrete entry: an exclusive holder makes an
ifAvailable exclusive request miss, resolving null with the entry
unchanged. -/
theorem C7_ifAvailable_witness :
    requestStep ⟨[.exclusive], []⟩ .exclusive true false
      = (⟨[.exclusive], []⟩, .grantedNull) :=
  (C7_ifAvailable_immediate_null ⟨[.exclusive], []⟩ .exclusive 0 true
      false).1 (by decide) (by decide)

/-- The holder invariant in propositional form: no holders, a single
exclusive holder, or only shared holders. -/
def WFP (holders : List Mode) : Prop :=
  holders = [] ∨ holders = [.exclusive] ∨ ∀ m ∈ holders, m = .shared

/-- The boolean invariant test agrees with its propositional form. -/
theorem holdersWF_iff (hs : List Mode) : holdersWF hs = true ↔ WFP hs := by
  simp only [holdersWF, WFP, Bool.or_eq_true, List.isEmpty_iff,
    List.all_eq_true, beq_iff_eq, or_assoc]

/-- Appending a compatible mode to a well-formed holder set keeps it
well-formed. -/
theorem wfp_append_compatible (hs : List Mode) (m : Mode) (h : WFP hs)
    (hc : compatible hs m = true) : WFP (hs ++ [m]) := by
  simp only [compatible, Bool.or_eq_true, List.isEmpty_iff, Bool.and_eq_true,
    beq_iff_eq, List.all_eq_true] at hc
  rcases hc with he | ⟨hm, hall⟩
  · subst he
    cases m with
    | exclusive => exact Or.inr (Or.inl rfl)
    | shared =>
      refine Or.inr (Or.inr ?_)
      intro x hx
      simpa using hx
  · subst hm
    refine Or.inr (Or.inr ?_)
    intro x hx
    rcases List.mem_append.mp hx with hx | hx
    · exact hall x hx
    · simpa using hx

/-- The wake scan keeps the holder set well-formed: each granted waiter
was compatible with the holder set it joined. -/
theorem wakeScan_wfp (ws : List Mode) :
    ∀ hs, WFP hs → WFP (wakeScan hs ws).1 := by
  induction ws with
  | nil => intro hs h; simpa [wakeScan] using h
  | cons w ws ih =>
    intro hs h
    by_cases hc : compatible hs w = true
    · rw [wakeScan, if_pos hc]
      exact ih (hs ++ [w]) (wfp_append_compatible hs w h hc)
    · rw [wakeScan, if_neg hc]
      exact h

/-- Dropping a holder keeps the holder set well-formed. -/
theorem eraseIdx_wfp (hs : List Mode) (i : Nat) (h : WFP hs) :
    WFP (hs.eraseIdx i) := by
  rcases h with h | h | h
  · subst h
    simp [WFP]
  · subst h
    cases i with
    | zero => exact Or.inl rfl
    | succ j =>
      refine Or.inr (Or.inl ?_)
      simp [List.eraseIdx]
  · refine Or.inr (Or.inr ?_)
    intro m hm
    exact h m ((List.eraseIdx_sublist hs i).subset hm)

/-- An immediately grantable non-steal request is compatible with the
current holders. -/
theorem compatible_of_tryGrantable (e : Entry) (m : Mode)
    (h : tryGrantable e m = true) : compatible e.holders m = true := by
  simp only [tryGrantable, Bool.or_eq_true, List.isEmpty_iff,
    Bool.and_eq_true, beq_iff_eq, List.all_eq_true] at h
  rcases h with he | ⟨⟨hm, hall⟩, _⟩
  · simp [compatible, he]
  · have h1 : (m == Mode.shared) = true := by simp [hm]
    have h2 : e.holders.all (fun x => x == Mode.shared) = true :=
      List.all_eq_true.mpr (fun x hx => by simp [hall x hx])
    simp [compatible, h1, h2]

/-- Submitting a request preserves the holder invariant: a steal leaves a
single holder, an immediate grant appends a compatible mode, and the
other outcomes leave the holders untouched. -/
theorem requestStep_wfp (e : Entry) (m : Mode) (ia st : Bool)
    (h : WFP e.holders) : WFP ((requestStep e m ia st).1).holders := by
  cases st with
  | true =>
    cases m with
    | exclusive => exact Or.inr (Or.inl rfl)
    | shared =>
      refine Or.inr (Or.inr ?_)
      intro x hx
      simpa [requestStep] using hx
  | false =>
    by_cases hg : tryGrantable e m = true
    · simp only [requestStep, if_neg (by decide : ¬false = true), if_pos hg]
      exact wfp_append_compatible e.holders m h (compatible_of_tryGrantable e m hg)
    · cases ia with
      | true => simpa [requestStep, hg] using h
      | false => simpa [requestStep, hg] using h

/-- Every entry-level transition preserves the holder invariant. -/
theorem estep_wfp {e1 e2 : Entry} (hst : EStep e1 e2) (h : WFP e1.holders) :
    WFP e2.holders := by
  cases hst with
  | request m ia st =>
    exact requestStep_wfp e1 m ia st h
  | release i =>
    have hw := wakeScan_wfp e1.waiters (e1.holders.eraseIdx i)
      (eraseIdx_wfp e1.holders i h)
    simpa [releaseStep] using hw
  | cancel j =>
    exact h

/-- Reading the entry of a name after rebinding another: the rebound name
sees the new entry, every other name is unaffected. -/
theorem getEntry_setEntry (s : TableState) (n0 : String) (e : Entry)
    (n : String) :
    getEntry (setEntry s n0 e) n = if n = n0 then e else getEntry s n := by
  by_cases hn : n = n0
  · subst hn
    simp [getEntry, setEntry, List.lookup]
  · have hb : (n == n0) = false := beq_eq_false_iff_ne.mpr hn
    simp [getEntry, setEntry, List.lookup, hb, hn]

/-- Every reachable table state satisfies the holder invariant at every
name. -/
theorem reachable_wfp (s : TableState) (hr : Reachable s) :
    ∀ n, WFP (getEntry s n).holders := by
  induction hr with
  | init =>
    intro n
    exact Or.inl rfl
  | step hs hst ih =>
    intro n
    cases hst with
    | mk n0 e2 he =>
      rw [getEntry_setEntry]
      by_cases hn : n = n0
      · rw [if_pos hn]
        exact estep_wfp he (ih n0)
      · rw [if_neg hn]
        exact ih n

/-- C9: in every reachable state of the lock table, the holders of every
name are at most one exclusive holder or any number of shared holders —
an exclusive holder never coexists with another holder.  A steal-mode
grant evicts the incompatible holders and grants in one atomic step, so
no reachable state exhibits the transient mixed set. -/
theorem C9_holder_invariant (s : TableState) (hr : Reachable s)
    (n : String) : holdersWF (getEntry s n).holders = true :=
  (holdersWF_iff _).mpr (reachable_wfp s hr n)

/-- Witness for C9 at a concrete reachable state: the table after one
exclusive grant of name a, reached from the empty table by one request
step. -/
theorem C9_holder_invariant_witness :
    holdersWF (getEntry (setEntry []
      "a" (requestStep (getEntry [] "a") .exclusive false false).1)
      "a").holders = true :=
  C9_holder_invariant _
    (Reachable.step Reachable.init
      (Step.mk [] "a" _ (EStep.request (getEntry [] "a") .exclusive false false)))
    "a"

end Locks
